import Mathlib

/-!
Verification of the loyal-backend async resource-lifecycle layer.

This file gives a shallow embedding, in Lean 4, of the parts of the
repository that the specification talks about:

* src/shared/database.py : placeholder translation, run_query,
  run_insert_query_with_id, execute_in_transaction, the auto-commit
  session scope, Database.create and its credential checks, and the
  DatabaseFactory singleton.
* src/shared/secrets.py : SecretsSchema.get, OnePasswordManager
  construction and get_secret_item, and the SecretsFactory singleton.
* src/shared/http.py : AsyncHttpClient.request (timeout and response
  handling).
* src/shared/exceptions.py : HTTPError.

Statement execution against the real engine is modelled by an abstract
executor function supplied as a parameter; everything the Python code
does around that executor is embedded faithfully.
-/

namespace LoyalBackend

/-! ## Values, parameters and abstract execution results

A scalar value flowing between the program and the database is left
abstract as a string; parameter mappings are association lists from
parameter name to value.  An execution result mirrors what SQLAlchemy
exposes on a Result object: the ordered column names (result.keys())
and the fetched rows (result.fetchall()), each row an ordered list of
values. -/

abbrev Val := String

abbrev Params := List (String × Val)

structure ExecResult where
  keys : List String
  rows : List (List Val)
  deriving Repr, DecidableEq

/-- Errors raised below the embedded layer (statement failures and so on).
Kept abstract: only propagation matters. -/
abbrev Err := String

/-- An abstract statement executor standing for session.execute: it
receives the (already translated, already stripped where the code strips)
statement text and the parameter mapping. -/
abbrev Exec := String → Params → Except Err ExecResult

/-! ## Placeholder translation

src/shared/database.py lines 164, 189 and 208 all run

  re.sub(r"%\((\w+)\)s", r":\1", query)

The regular expression engine scans left to right; at each position it
tries to match a literal percent sign, a literal opening parenthesis, a
maximal nonempty run of word characters, then a literal closing
parenthesis and the letter s.  On a match the whole token is replaced by
a colon followed by the captured name and scanning resumes after the
token; otherwise one character is emitted unchanged and scanning resumes
at the next position. -/

/-- Word character in the sense of the regex class backslash-w
(restricted to ASCII, which is all the queries in this codebase use). -/
def isWordChar (c : Char) : Bool := c.isAlphanum || c == '_'

/-- Attempt to match the token pattern percent, open paren, nonempty word,
close paren, letter s at the head of the character list.  Returns the
captured name and the remainder after the token. -/
def matchTok : List Char → Option (List Char × List Char)
  | c1 :: c2 :: rest2 =>
    if c1 = '%' ∧ c2 = '(' then
      let w := rest2.takeWhile isWordChar
      match rest2.dropWhile isWordChar with
      | d1 :: d2 :: tail =>
        if d1 = ')' ∧ d2 = 's' ∧ w ≠ [] then some (w, tail) else none
      | _ => none
    else none
  | _ => none

theorem length_dropWhile_word_le (l : List Char) :
    (l.dropWhile isWordChar).length ≤ l.length := by
  induction l with
  | nil => simp [List.dropWhile]
  | cons c rest ih =>
    by_cases h : isWordChar c
    · simp only [List.dropWhile, h, List.length_cons]
      omega
    · simp [List.dropWhile, h]

theorem matchTok_some_length {l w tail} (h : matchTok l = some (w, tail)) :
    tail.length < l.length := by
  match l with
  | [] => simp [matchTok] at h
  | [c] => simp [matchTok] at h
  | c1 :: c2 :: rest2 =>
    simp only [matchTok] at h
    split at h
    case isTrue =>
      have hlen : (rest2.dropWhile isWordChar).length ≤ rest2.length :=
        length_dropWhile_word_le rest2
      split at h
      case h_1 d1 d2 t heq =>
        split at h
        case isTrue =>
          cases h
          rw [heq] at hlen
          simp only [List.length_cons] at hlen ⊢
          omega
        case isFalse => exact absurd h (by simp)
      case h_2 => exact absurd h (by simp)
    case isFalse => exact absurd h (by simp)

/-- The left-to-right, non-overlapping substitution performed by
re.sub(r"%\((\w+)\)s", r":\1", query), on character lists, written
with explicit fuel so that it evaluates by kernel reduction; the fuel
never runs out when it starts at the length of the list. -/
def convertCharsF : Nat → List Char → List Char
  | 0, l => l
  | fuel + 1, l =>
    match matchTok l with
    | some (w, tail) => ':' :: (w ++ convertCharsF fuel tail)
    | none =>
      match l with
      | [] => []
      | c :: rest => c :: convertCharsF fuel rest

/-- The substitution itself. -/
def convertChars (l : List Char) : List Char := convertCharsF l.length l

/-- The same substitution on strings, as applied to query text. -/
def convertQuery (s : String) : String := (convertChars s.data).asString

theorem convertCharsF_congr :
    ∀ (fuel fuel2 : Nat) (l : List Char), l.length ≤ fuel →
      l.length ≤ fuel2 → convertCharsF fuel l = convertCharsF fuel2 l := by
  intro fuel
  induction fuel with
  | zero =>
    intro fuel2 l h1 h2
    have : l = [] := List.eq_nil_of_length_eq_zero (Nat.le_zero.mp h1)
    subst this
    cases fuel2 <;> simp [convertCharsF, matchTok]
  | succ f ih =>
    intro fuel2 l h1 h2
    cases fuel2 with
    | zero =>
      have : l = [] := List.eq_nil_of_length_eq_zero (Nat.le_zero.mp h2)
      subst this
      simp [convertCharsF, matchTok]
    | succ f2 =>
      simp only [convertCharsF]
      cases hm : matchTok l with
      | some p =>
        obtain ⟨w, tail⟩ := p
        have htl : tail.length < l.length := matchTok_some_length hm
        dsimp only
        rw [ih f2 tail (by omega) (by omega)]
      | none =>
        cases l with
        | nil => rfl
        | cons c rest =>
          simp only [List.length_cons] at h1 h2
          dsimp only
          rw [ih f2 rest (by omega) (by omega)]

theorem convertChars_matched {l w tail : List Char}
    (h : matchTok l = some (w, tail)) :
    convertChars l = ':' :: (w ++ convertChars tail) := by
  cases l with
  | nil => simp [matchTok] at h
  | cons c rest =>
    have htl : tail.length < (c :: rest).length := matchTok_some_length h
    simp only [convertChars, List.length_cons, convertCharsF, h]
    rw [convertCharsF_congr rest.length tail.length tail
      (by simp only [List.length_cons] at htl; omega) (Nat.le_refl _)]

theorem convertChars_nil : convertChars [] = [] := rfl

theorem convertChars_unmatched {c : Char} {rest : List Char}
    (h : matchTok (c :: rest) = none) :
    convertChars (c :: rest) = c :: convertChars rest := by
  simp only [convertChars, List.length_cons, convertCharsF, h]

/-! ## Session scope (src/shared/database.py, Database.session)

The auto-commit scope opens a session, yields it to the body, commits if
the body returns normally, and on any raised error rolls back and
re-raises; the enclosing async-with closes the session on every exit
path.  The body is represented by its outcome together with the events
it performed; the scope wraps that trace. -/

inductive Ev where
  | sOpen
  | sCommit
  | sRollback
  | sClose
  | txBegin
  | txCommit
  | txRollback
  | exec (q : String)
  deriving Repr, DecidableEq

/-- Database.session : open, run the body, commit on normal return,
rollback and re-raise on error, always close. -/
def sessionScope {A : Type} (body : Except Err A × List Ev) :
    Except Err A × List Ev :=
  match body with
  | (.ok a, evs) => (.ok a, Ev.sOpen :: evs ++ [Ev.sCommit, Ev.sClose])
  | (.error e, evs) => (.error e, Ev.sOpen :: evs ++ [Ev.sRollback, Ev.sClose])

/-- session.begin() : an explicit transaction boundary that commits on
normal return of the body and rolls back when the body raises. -/
def txScope {A : Type} (body : Except Err A × List Ev) :
    Except Err A × List Ev :=
  match body with
  | (.ok a, evs) => (.ok a, Ev.txBegin :: evs ++ [Ev.txCommit])
  | (.error e, evs) => (.error e, Ev.txBegin :: evs ++ [Ev.txRollback])

/-! ## run_query (src/shared/database.py lines 150-177)

The query has its percent placeholders translated, is stripped, and is
executed inside the auto-commit scope.  If the stripped text starts with
SELECT, WITH or RETURNING (case-sensitively), the rows are materialized
as ordered column-name/value mappings via dict(zip(keys, row,
strict=False)); otherwise the literal empty list is returned (although
the docstring of the function says None is returned in that case). -/

/-- query.strip() : drop leading and trailing whitespace (computed on
the character list so that it evaluates by kernel reduction). -/
def stripChars (l : List Char) : List Char :=
  ((l.dropWhile Char.isWhitespace).reverse.dropWhile Char.isWhitespace).reverse

def pyStrip (s : String) : String := (stripChars s.data).asString

/-- text.startswith(pat) on character lists: pattern, then text. -/
def startsWithChars : List Char → List Char → Bool
  | [], _ => true
  | _ :: _, [] => false
  | p :: ps, c :: cs => p == c && startsWithChars ps cs

def pyStartsWith (s pat : String) : Bool := startsWithChars pat.data s.data

/-- dict(zip(keys, row, strict=False)) : pair the column names with the
row values, stopping at the shorter list, preserving column order. -/
def zipRow (keys : List String) (row : List Val) : List (String × Val) :=
  List.zip keys row

/-- query.startswith(("SELECT", "WITH", "RETURNING")) -/
def isReadQuery (q : String) : Bool :=
  pyStartsWith q "SELECT" || pyStartsWith q "WITH" || pyStartsWith q "RETURNING"

/-- Database.run_query.  Returns the value the Python function returns
together with the session events. -/
def runQuery (ex : Exec) (query : String) (params : Params) :
    Except Err (List (List (String × Val))) × List Ev :=
  let q := pyStrip (convertQuery query)
  sessionScope (match ex q params with
    | .error e => (.error e, [Ev.exec q])
    | .ok r =>
      if isReadQuery q then
        (.ok (r.rows.map (zipRow r.keys)), [Ev.exec q])
      else
        (.ok [], [Ev.exec q]))

/-! ## run_insert_query_with_id (src/shared/database.py lines 179-198)

Translates placeholders, executes the statement, then issues
SELECT LAST_INSERT_ID() as id on the same session, commits explicitly,
and returns row.id of the first row, or None when no row came back. -/

def lastInsertIdQuery : String := "SELECT LAST_INSERT_ID() as id"

/-- row.id on the first fetched row: attribute access on the row object,
an error when the row exists but exposes no id column. -/
def firstRowId (r : ExecResult) : Except Err (Option Val) :=
  match r.rows.head? with
  | none => .ok none
  | some row =>
    match (zipRow r.keys row).lookup "id" with
    | some v => .ok (some v)
    | none => .error "row has no attribute id"

/-- Database.run_insert_query_with_id. -/
def runInsertQueryWithId (ex : Exec) (query : String) (params : Params) :
    Except Err (Option Val) × List Ev :=
  let q := convertQuery query
  sessionScope (match ex q params with
    | .error e => (.error e, [Ev.exec q])
    | .ok _ =>
      match ex lastInsertIdQuery [] with
      | .error e => (.error e, [Ev.exec q, Ev.exec lastInsertIdQuery])
      | .ok r =>
        (firstRowId r,
         [Ev.exec q, Ev.exec lastInsertIdQuery, Ev.sCommit]))

/-! ## execute_in_transaction (src/shared/database.py lines 200-214)

Opens one session, one explicit transaction boundary, converts and
executes every statement in order against the same parameter mapping,
returns True when all succeed; on any failure rolls back explicitly and
re-raises.  Statement effects are modelled on an abstract database state
threaded through a stateful executor; the committed state changes only
when the whole transaction commits. -/

/-- A stateful executor: a statement maps a database state to an error
or a new state. -/
abbrev ExecSt (DB : Type) := String → Params → DB → Except Err DB

/-- The loop body: convert and execute each statement in order on the
pending (uncommitted) state, recording the executed statement texts. -/
def runStmts {DB : Type} (ex : ExecSt DB) (params : Params) :
    List String → DB → Except Err DB × List Ev
  | [], db => (.ok db, [])
  | q :: qs, db =>
    let cq := convertQuery q
    match ex cq params db with
    | .error e => (.error e, [Ev.exec cq])
    | .ok db2 =>
      let (r, evs) := runStmts ex params qs db2
      (r, Ev.exec cq :: evs)

/-- The except-branch of the inner try: an explicit session.rollback()
before the error is re-raised. -/
def innerTry {A : Type} (r : Except Err A × List Ev) :
    Except Err A × List Ev :=
  match r with
  | (.ok a, evs) => (.ok a, evs)
  | (.error e, evs) => (.error e, evs ++ [Ev.sRollback])

/-- Database.execute_in_transaction.  Returns the flag or the re-raised
error, the committed database state after the call, and the events. -/
def executeInTransaction {DB : Type} (ex : ExecSt DB) (queries : List String)
    (params : Params) (db : DB) : Except Err Bool × DB × List Ev :=
  match sessionScope (txScope (innerTry (runStmts ex params queries db))) with
  | (.ok dbF, evs) => (.ok true, dbF, evs)
  | (.error e, evs) => (.error e, db, evs)

/-! ## SecretsSchema (src/shared/secrets.py lines 14-20)

A pydantic model holding a string-to-string mapping; its get method
asserts the key is present, so a missing key raises
AssertionError(f"Key {key} not found"). -/

structure SecretsSchema where
  secrets : List (String × String)
  deriving Repr, DecidableEq

def SecretsSchema.get (s : SecretsSchema) (key : String) : Except Err String :=
  match s.secrets.lookup key with
  | some v => .ok v
  | none => .error ("Key " ++ key ++ " not found")

/-! ## OnePasswordManager.get_secret_item (src/shared/secrets.py 128-160)

Iterates over the vault item fields; a field whose label or value is
absent fails the inner assertions, the AssertionError is caught and the
field is skipped; otherwise response_dict.secrets[label] = value.  The
mapping is a Python dict: assignment to an existing key replaces the
value in place, assignment to a new key appends it in insertion order. -/

structure OPField where
  label : Option String
  value : Option String
  deriving Repr, DecidableEq

/-- Python dict assignment d[k] = v. -/
def dictInsert (m : List (String × String)) (k v : String) :
    List (String × String) :=
  if (m.lookup k).isSome then
    m.map (fun p => if p.1 = k then (k, v) else p)
  else
    m ++ [(k, v)]

/-- The label/value pair of a field when both are present. -/
def fieldPair (f : OPField) : Option (String × String) :=
  match f.label, f.value with
  | some l, some v => some (l, v)
  | _, _ => none

/-- OnePasswordManager.get_secret_item, as a function of the fields of
the fetched vault item.  Total: fields lacking a label or a value are
skipped, never an error. -/
def getSecretItem (fields : List OPField) : SecretsSchema :=
  ⟨fields.foldl
    (fun m f =>
      match fieldPair f with
      | some p => dictInsert m p.1 p.2
      | none => m)
    []⟩

/-! ## Database construction (src/shared/database.py lines 55-115)

Database.create fetches the ATHENA_POSTGRES item, reads username,
database and password through SecretsSchema.get (in that order; a
missing key raises there), picks host and port from the deployment
mode, builds the URLs and only then creates the engine and the session
factory, finishing with the post-init assertions. -/

structure DatabaseModel where
  user : String
  dbName : String
  password : String
  host : String
  port : Nat
  engine : Bool
  sessionFactory : Bool
  deriving Repr, DecidableEq

inductive CreateEv where
  | fetchedSecrets
  | engineCreated
  | sessionFactoryCreated
  deriving Repr, DecidableEq

/-- Database.__init_db : read the three credentials through
SecretsSchema.get and pick host/port from the deployment mode. -/
def initDb (fetched : SecretsSchema) (deployment : String)
    (envHost : String) (envPort : Nat) :
    Except Err (String × String × String × String × Nat) := do
  let user ← fetched.get "username"
  let dbName ← fetched.get "database"
  let password ← fetched.get "password"
  let host := if deployment = "local" then "localhost" else envHost
  let port := if deployment = "local" then 5432 else envPort
  .ok (user, dbName, password, host, port)

/-- Database.create given the fetched secrets item: __init_db first,
then engine and session-factory creation, then the post-init checks
(which all pass once __init_db returned, since the schema holds
strings).  The event list records which construction steps ran. -/
def databaseCreate (fetched : SecretsSchema) (deployment : String)
    (envHost : String) (envPort : Nat) :
    Except Err DatabaseModel × List CreateEv :=
  match initDb fetched deployment envHost envPort with
  | .error e => (.error e, [CreateEv.fetchedSecrets])
  | .ok (user, dbName, password, host, port) =>
    (.ok { user := user, dbName := dbName, password := password,
           host := host, port := port, engine := true,
           sessionFactory := true },
     [CreateEv.fetchedSecrets, CreateEv.engineCreated,
      CreateEv.sessionFactoryCreated])

/-! ## HTTP client (src/shared/http.py, src/shared/exceptions.py)

AsyncHttpClient.request issues a single session.request with
timeout=ClientTimeout(total=20) and no retry loop.  Its response
handling: try response.json(); on ContentTypeError return
response.text(); on any other failure raise
HTTPError(response.status, response.text()).  The HTTP status code is
never inspected: a non-2xx response whose body parses as JSON is
returned like a success. -/

structure ClientTimeoutModel where
  total : Option Nat
  deriving Repr, DecidableEq

structure RequestSpec where
  method : String
  url : String
  headers : List (String × String)
  timeout : ClientTimeoutModel
  deriving Repr, DecidableEq

/-- The single outbound request built by AsyncHttpClient.request. -/
def httpRequestSpec (method url : String)
    (headers : List (String × String)) : RequestSpec :=
  { method := method, url := url, headers := headers,
    timeout := { total := some 20 } }

/-- HTTPError from src/shared/exceptions.py: carries the status code
and the raw body text. -/
structure HTTPErrorModel where
  status : Nat
  message : String
  deriving Repr, DecidableEq

/-- HTTPError.__str__. -/
def HTTPErrorModel.str (e : HTTPErrorModel) : String :=
  "HTTPError: " ++ toString e.status ++ " " ++ e.message

/-- What the wire handed back, as seen by response.json(): a body that
parses as a JSON document, a body whose content type is not JSON
(response.json() raises ContentTypeError), or a JSON-typed body that
fails to decode. -/
inductive RespBody where
  | jsonDoc (d : String)
  | nonJsonText (t : String)
  | malformedJson (b : String)
  deriving Repr, DecidableEq

structure HttpResponse where
  status : Nat
  body : RespBody
  deriving Repr, DecidableEq

/-- The response handling of AsyncHttpClient.request: the parsed JSON
document, or the raw text on a content-type mismatch, or HTTPError
carrying status and raw body text when decoding fails.  The status code
is not consulted. -/
def httpRequest (resp : HttpResponse) :
    Except HTTPErrorModel (String ⊕ String) :=
  match resp.body with
  | .jsonDoc d => .ok (.inl d)
  | .nonJsonText t => .ok (.inr t)
  | .malformedJson b => .error { status := resp.status, message := b }

/-! ## Secrets backend client construction (src/shared/secrets.py 90-109)

OnePasswordManager.__init_client calls
new_client(self.host, service_token, is_async=True): host, token and
the async flag are the only arguments this repository supplies to the
SDK; no timeout of any kind is configured for calls to the secrets
backend. -/

structure OnePasswordClientConfig where
  host : String
  token : String
  isAsync : Bool
  timeout : Option Nat
  deriving Repr, DecidableEq

/-- The client configuration supplied by this repository to the
1Password Connect SDK. -/
def newClientArgs (host token : String) : OnePasswordClientConfig :=
  { host := host, token := token, isAsync := true, timeout := none }

/-! ## The singleton factories
(DatabaseFactory.get_instance, SecretsFactory.get_instance,
PhalaFactory.get_instance, AsyncSingleton.get)

All four share one double-checked-locking body:

    if cls._instance is None:
        async with cls._lock:
            if cls._instance is None:
                cls._instance = await Factory.create()
    return cls._instance

Under asyncio, code between awaits runs atomically; the suspension
points are lock acquisition and the await on the factory.  The body is
modelled as a transition system over N cooperating callers: each caller
owns a program counter, and a scheduler step runs one caller up to its
next suspension point.  A factory run is identified by its run index;
on success the run's index becomes the cached instance, on failure the
instance stays unset, the lock is released by the async-with exit and
the error propagates to the calling caller. -/

inductive CallerPC where
  | start
  | waiting
  | check
  | building (rid : Nat)
  | unlock
  | retRead
  | done (v : Nat)
  | failed (e : Err)
  deriving Repr, DecidableEq

structure SState (n : Nat) where
  inst : Option Nat
  lock : Option (Fin n)
  runs : Nat
  fails : Nat
  pcs : Fin n → CallerPC

inductive SLabel (n : Nat) where
  | fastRet (i : Fin n)
  | slowPath (i : Fin n)
  | acquire (i : Fin n)
  | checkFound (i : Fin n)
  | startRun (i : Fin n)
  | finishOk (i : Fin n)
  | finishFail (i : Fin n) (e : Err)
  | release (i : Fin n)
  | retRead (i : Fin n)

/-- One scheduler step of one caller of get_instance. -/
inductive Step {n : Nat} : SLabel n → SState n → SState n → Prop where
  | fastRet {s : SState n} (i : Fin n) (v : Nat)
      (hpc : s.pcs i = .start) (hinst : s.inst = some v) :
      Step (.fastRet i) s
        { s with pcs := Function.update s.pcs i (.done v) }
  | slowPath {s : SState n} (i : Fin n)
      (hpc : s.pcs i = .start) (hinst : s.inst = none) :
      Step (.slowPath i) s
        { s with pcs := Function.update s.pcs i .waiting }
  | acquire {s : SState n} (i : Fin n)
      (hpc : s.pcs i = .waiting) (hlock : s.lock = none) :
      Step (.acquire i) s
        { s with lock := some i, pcs := Function.update s.pcs i .check }
  | checkFound {s : SState n} (i : Fin n) (v : Nat)
      (hpc : s.pcs i = .check) (hinst : s.inst = some v) :
      Step (.checkFound i) s
        { s with pcs := Function.update s.pcs i .unlock }
  | startRun {s : SState n} (i : Fin n)
      (hpc : s.pcs i = .check) (hinst : s.inst = none) :
      Step (.startRun i) s
        { s with runs := s.runs + 1,
                 pcs := Function.update s.pcs i (.building s.runs) }
  | finishOk {s : SState n} (i : Fin n) (rid : Nat)
      (hpc : s.pcs i = .building rid) (hlock : s.lock = some i) :
      Step (.finishOk i) s
        { s with inst := some rid,
                 pcs := Function.update s.pcs i .unlock }
  | finishFail {s : SState n} (i : Fin n) (rid : Nat) (e : Err)
      (hpc : s.pcs i = .building rid) (hlock : s.lock = some i) :
      Step (.finishFail i e) s
        { s with fails := s.fails + 1, lock := none,
                 pcs := Function.update s.pcs i (.failed e) }
  | release {s : SState n} (i : Fin n)
      (hpc : s.pcs i = .unlock) (hlock : s.lock = some i) :
      Step (.release i) s
        { s with lock := none, pcs := Function.update s.pcs i .retRead }
  | retRead {s : SState n} (i : Fin n) (v : Nat)
      (hpc : s.pcs i = .retRead) (hinst : s.inst = some v) :
      Step (.retRead i) s
        { s with pcs := Function.update s.pcs i (.done v) }

/-- All callers about to invoke get_instance on the unset singleton. -/
def initState (n : Nat) : SState n :=
  { inst := none, lock := none, runs := 0, fails := 0,
    pcs := fun _ => .start }

inductive Reachable {n : Nat} : SState n → Prop where
  | init : Reachable (initState n)
  | step {s s2 : SState n} {l : SLabel n} :
      Reachable s → Step l s s2 → Reachable s2

/-- Program points at which a caller holds the lock. -/
def holdsLock : CallerPC → Prop
  | .check => True
  | .building _ => True
  | .unlock => True
  | _ => False

def isBuilding : CallerPC → Prop
  | .building _ => True
  | _ => False

instance : DecidablePred isBuilding := fun pc => by
  cases pc <;> simp [isBuilding] <;> infer_instance

/-- The inductive invariant of the double-checked-locking machine. -/
def Inv {n : Nat} (s : SState n) : Prop :=
  (∀ i : Fin n, holdsLock (s.pcs i) → s.lock = some i) ∧
  (∀ (i : Fin n) (rid : Nat), s.pcs i = .building rid →
    s.inst = none ∧ rid + 1 = s.runs) ∧
  (∀ (i : Fin n) (v : Nat), s.pcs i = .done v → s.inst = some v) ∧
  (s.runs = s.fails
    + (if ∃ i : Fin n, isBuilding (s.pcs i) then 1 else 0)
    + (if s.inst.isSome then 1 else 0)) ∧
  ((∀ (i : Fin n) (e : Err), s.pcs i ≠ .failed e) → s.fails = 0)

theorem exists_building_update {n : Nat} (pcs : Fin n → CallerPC)
    (i : Fin n) (pc : CallerPC)
    (hold : ¬ isBuilding (pcs i)) (hnew : ¬ isBuilding pc) :
    (∃ j, isBuilding (Function.update pcs i pc j)) ↔
      ∃ j, isBuilding (pcs j) := by
  constructor
  · rintro ⟨j, hj⟩
    by_cases hji : j = i
    · subst hji; rw [Function.update_same] at hj; exact absurd hj hnew
    · rw [Function.update_noteq hji] at hj; exact ⟨j, hj⟩
  · rintro ⟨j, hj⟩
    by_cases hji : j = i
    · subst hji; exact absurd hj hold
    · exact ⟨j, by rw [Function.update_noteq hji]; exact hj⟩

theorem isBuilding_iff (pc : CallerPC) :
    isBuilding pc ↔ ∃ rid, pc = CallerPC.building rid := by
  cases pc <;> simp [isBuilding]

theorem inv_init (n : Nat) : Inv (initState n) := by
  refine ⟨?_, ?_, ?_, ?_, ?_⟩ <;>
    simp [initState, holdsLock, isBuilding]

theorem inv_step {n : Nat} {l : SLabel n} {s s2 : SState n}
    (hs : Inv s) (hstep : Step l s s2) : Inv s2 := by
  obtain ⟨hLock, hBuild, hDone, hCount, hFail⟩ := hs
  cases hstep with
  | fastRet i v hpc hinst =>
    unfold Inv
    dsimp only
    refine ⟨?_, ?_, ?_, ?_, ?_⟩
    · intro j hj
      by_cases hji : j = i
      · subst hji; rw [Function.update_same] at hj
        exact absurd hj (by simp [holdsLock])
      · rw [Function.update_noteq hji] at hj; exact hLock j hj
    · intro j rid hj
      by_cases hji : j = i
      · subst hji; rw [Function.update_same] at hj; exact absurd hj (by simp)
      · rw [Function.update_noteq hji] at hj; exact hBuild j rid hj
    · intro j w hj
      by_cases hji : j = i
      · subst hji; rw [Function.update_same] at hj
        cases hj; exact hinst
      · rw [Function.update_noteq hji] at hj; exact hDone j w hj
    · have hiff := exists_building_update s.pcs i (CallerPC.done v)
        (by rw [hpc]; simp [isBuilding]) (by simp [isBuilding])
      simpa only [hiff] using hCount
    · intro h2
      refine hFail ?_
      intro j e hje
      by_cases hji : j = i
      · subst hji; rw [hpc] at hje; cases hje
      · have := h2 j e
        rw [Function.update_noteq hji] at this
        exact this hje
  | slowPath i hpc hinst =>
    unfold Inv
    dsimp only
    refine ⟨?_, ?_, ?_, ?_, ?_⟩
    · intro j hj
      by_cases hji : j = i
      · subst hji; rw [Function.update_same] at hj
        exact absurd hj (by simp [holdsLock])
      · rw [Function.update_noteq hji] at hj; exact hLock j hj
    · intro j rid hj
      by_cases hji : j = i
      · subst hji; rw [Function.update_same] at hj; exact absurd hj (by simp)
      · rw [Function.update_noteq hji] at hj; exact hBuild j rid hj
    · intro j w hj
      by_cases hji : j = i
      · subst hji; rw [Function.update_same] at hj; exact absurd hj (by simp)
      · rw [Function.update_noteq hji] at hj; exact hDone j w hj
    · have hiff := exists_building_update s.pcs i CallerPC.waiting
        (by rw [hpc]; simp [isBuilding]) (by simp [isBuilding])
      simpa only [hiff] using hCount
    · intro h2
      refine hFail ?_
      intro j e hje
      by_cases hji : j = i
      · subst hji; rw [hpc] at hje; cases hje
      · have := h2 j e
        rw [Function.update_noteq hji] at this
        exact this hje
  | acquire i hpc hlock =>
    unfold Inv
    dsimp only
    refine ⟨?_, ?_, ?_, ?_, ?_⟩
    · intro j hj
      by_cases hji : j = i
      · subst hji; rfl
      · rw [Function.update_noteq hji] at hj
        have := hLock j hj
        rw [hlock] at this; cases this
    · intro j rid hj
      by_cases hji : j = i
      · subst hji; rw [Function.update_same] at hj; exact absurd hj (by simp)
      · rw [Function.update_noteq hji] at hj; exact hBuild j rid hj
    · intro j w hj
      by_cases hji : j = i
      · subst hji; rw [Function.update_same] at hj; exact absurd hj (by simp)
      · rw [Function.update_noteq hji] at hj; exact hDone j w hj
    · have hiff := exists_building_update s.pcs i CallerPC.check
        (by rw [hpc]; simp [isBuilding]) (by simp [isBuilding])
      simpa only [hiff] using hCount
    · intro h2
      refine hFail ?_
      intro j e hje
      by_cases hji : j = i
      · subst hji; rw [hpc] at hje; cases hje
      · have := h2 j e
        rw [Function.update_noteq hji] at this
        exact this hje
  | checkFound i v hpc hinst =>
    have hlock : s.lock = some i := hLock i (by rw [hpc]; trivial)
    unfold Inv
    dsimp only
    refine ⟨?_, ?_, ?_, ?_, ?_⟩
    · intro j hj
      by_cases hji : j = i
      · subst hji; exact hlock
      · rw [Function.update_noteq hji] at hj; exact hLock j hj
    · intro j rid hj
      by_cases hji : j = i
      · subst hji; rw [Function.update_same] at hj; exact absurd hj (by simp)
      · rw [Function.update_noteq hji] at hj; exact hBuild j rid hj
    · intro j w hj
      by_cases hji : j = i
      · subst hji; rw [Function.update_same] at hj; exact absurd hj (by simp)
      · rw [Function.update_noteq hji] at hj; exact hDone j w hj
    · have hiff := exists_building_update s.pcs i CallerPC.unlock
        (by rw [hpc]; simp [isBuilding]) (by simp [isBuilding])
      simpa only [hiff] using hCount
    · intro h2
      refine hFail ?_
      intro j e hje
      by_cases hji : j = i
      · subst hji; rw [hpc] at hje; cases hje
      · have := h2 j e
        rw [Function.update_noteq hji] at this
        exact this hje
  | startRun i hpc hinst =>
    have hlock : s.lock = some i := hLock i (by rw [hpc]; trivial)
    have hnob : ∀ j rid, s.pcs j ≠ CallerPC.building rid := by
      intro j rid hj
      have hjl := hLock j (by rw [hj]; trivial)
      rw [hlock] at hjl
      have : j = i := by cases hjl; rfl
      subst this; rw [hpc] at hj; cases hj
    unfold Inv
    dsimp only
    refine ⟨?_, ?_, ?_, ?_, ?_⟩
    · intro j hj
      by_cases hji : j = i
      · subst hji; exact hlock
      · rw [Function.update_noteq hji] at hj; exact hLock j hj
    · intro j rid hj
      by_cases hji : j = i
      · subst hji; rw [Function.update_same] at hj
        cases hj; exact ⟨hinst, rfl⟩
      · rw [Function.update_noteq hji] at hj
        exact absurd hj (hnob j rid)
    · intro j w hj
      by_cases hji : j = i
      · subst hji; rw [Function.update_same] at hj; exact absurd hj (by simp)
      · rw [Function.update_noteq hji] at hj; exact hDone j w hj
    · have hpre : ¬ ∃ j, isBuilding (s.pcs j) := by
        rintro ⟨j, hj⟩
        rw [isBuilding_iff] at hj
        obtain ⟨rid, hb⟩ := hj
        exact hnob j rid hb
      have hpost : ∃ j, isBuilding
          (Function.update s.pcs i (CallerPC.building s.runs) j) :=
        ⟨i, by rw [Function.update_same]; trivial⟩
      rw [if_pos hpost]
      rw [if_neg hpre] at hCount
      rw [hinst] at hCount ⊢
      simp only [Option.isSome_none, Bool.false_eq_true, if_false] at hCount ⊢
      omega
    · intro h2
      refine hFail ?_
      intro j e hje
      by_cases hji : j = i
      · subst hji; rw [hpc] at hje; cases hje
      · have := h2 j e
        rw [Function.update_noteq hji] at this
        exact this hje
  | finishOk i rid hpc hlock =>
    have hinst : s.inst = none := (hBuild i rid hpc).1
    have honly : ∀ j, holdsLock (s.pcs j) → j = i := by
      intro j hj
      have := hLock j hj
      rw [hlock] at this; cases this; rfl
    unfold Inv
    dsimp only
    refine ⟨?_, ?_, ?_, ?_, ?_⟩
    · intro j hj
      by_cases hji : j = i
      · subst hji; exact hlock
      · rw [Function.update_noteq hji] at hj; exact hLock j hj
    · intro j rid2 hj
      by_cases hji : j = i
      · subst hji; rw [Function.update_same] at hj; exact absurd hj (by simp)
      · rw [Function.update_noteq hji] at hj
        have : j = i := honly j (by rw [hj]; trivial)
        exact absurd this hji
    · intro j w hj
      by_cases hji : j = i
      · subst hji; rw [Function.update_same] at hj; exact absurd hj (by simp)
      · rw [Function.update_noteq hji] at hj
        have := hDone j w hj
        rw [hinst] at this; cases this
    · have hpre : ∃ j, isBuilding (s.pcs j) :=
        ⟨i, by rw [hpc]; trivial⟩
      have hpost : ¬ ∃ j, isBuilding
          (Function.update s.pcs i CallerPC.unlock j) := by
        rintro ⟨j, hj⟩
        by_cases hji : j = i
        · subst hji; rw [Function.update_same] at hj
          exact absurd hj (by simp [isBuilding])
        · rw [Function.update_noteq hji] at hj
          rw [isBuilding_iff] at hj
          obtain ⟨rid2, hb⟩ := hj
          exact hji (honly j (by rw [hb]; trivial))
      rw [if_neg hpost]
      rw [if_pos hpre] at hCount
      rw [hinst] at hCount
      simp only [Option.isSome_none, Bool.false_eq_true, if_false] at hCount
      simp only [Option.isSome_some, if_true]
      omega
    · intro h2
      refine hFail ?_
      intro j e hje
      by_cases hji : j = i
      · subst hji; rw [hpc] at hje; cases hje
      · have := h2 j e
        rw [Function.update_noteq hji] at this
        exact this hje
  | finishFail i rid e hpc hlock =>
    have hinst : s.inst = none := (hBuild i rid hpc).1
    have honly : ∀ j, holdsLock (s.pcs j) → j = i := by
      intro j hj
      have := hLock j hj
      rw [hlock] at this; cases this; rfl
    unfold Inv
    dsimp only
    refine ⟨?_, ?_, ?_, ?_, ?_⟩
    · intro j hj
      by_cases hji : j = i
      · subst hji; rw [Function.update_same] at hj
        exact absurd hj (by simp [holdsLock])
      · rw [Function.update_noteq hji] at hj
        have := honly j hj
        exact absurd this hji
    · intro j rid2 hj
      by_cases hji : j = i
      · subst hji; rw [Function.update_same] at hj; exact absurd hj (by simp)
      · rw [Function.update_noteq hji] at hj
        have : j = i := honly j (by rw [hj]; trivial)
        exact absurd this hji
    · intro j w hj
      by_cases hji : j = i
      · subst hji; rw [Function.update_same] at hj; exact absurd hj (by simp)
      · rw [Function.update_noteq hji] at hj
        have := hDone j w hj
        rw [hinst] at this; cases this
    · have hpre : ∃ j, isBuilding (s.pcs j) :=
        ⟨i, by rw [hpc]; trivial⟩
      have hpost : ¬ ∃ j, isBuilding
          (Function.update s.pcs i (CallerPC.failed e) j) := by
        rintro ⟨j, hj⟩
        by_cases hji : j = i
        · subst hji; rw [Function.update_same] at hj
          exact absurd hj (by simp [isBuilding])
        · rw [Function.update_noteq hji] at hj
          rw [isBuilding_iff] at hj
          obtain ⟨rid2, hb⟩ := hj
          exact hji (honly j (by rw [hb]; trivial))
      rw [if_neg hpost]
      rw [if_pos hpre] at hCount
      rw [hinst] at hCount ⊢
      simp only [Option.isSome_none, Bool.false_eq_true, if_false] at hCount ⊢
      omega
    · intro h2
      exfalso
      have := h2 i e
      rw [Function.update_same] at this
      exact this rfl
  | release i hpc hlock =>
    have honly : ∀ j, holdsLock (s.pcs j) → j = i := by
      intro j hj
      have := hLock j hj
      rw [hlock] at this; cases this; rfl
    unfold Inv
    dsimp only
    refine ⟨?_, ?_, ?_, ?_, ?_⟩
    · intro j hj
      by_cases hji : j = i
      · subst hji; rw [Function.update_same] at hj
        exact absurd hj (by simp [holdsLock])
      · rw [Function.update_noteq hji] at hj
        have := honly j hj
        exact absurd this hji
    · intro j rid hj
      by_cases hji : j = i
      · subst hji; rw [Function.update_same] at hj; exact absurd hj (by simp)
      · rw [Function.update_noteq hji] at hj; exact hBuild j rid hj
    · intro j w hj
      by_cases hji : j = i
      · subst hji; rw [Function.update_same] at hj; exact absurd hj (by simp)
      · rw [Function.update_noteq hji] at hj; exact hDone j w hj
    · have hiff := exists_building_update s.pcs i CallerPC.retRead
        (by rw [hpc]; simp [isBuilding]) (by simp [isBuilding])
      simpa only [hiff] using hCount
    · intro h2
      refine hFail ?_
      intro j e hje
      by_cases hji : j = i
      · subst hji; rw [hpc] at hje; cases hje
      · have := h2 j e
        rw [Function.update_noteq hji] at this
        exact this hje
  | retRead i v hpc hinst =>
    unfold Inv
    dsimp only
    refine ⟨?_, ?_, ?_, ?_, ?_⟩
    · intro j hj
      by_cases hji : j = i
      · subst hji; rw [Function.update_same] at hj
        exact absurd hj (by simp [holdsLock])
      · rw [Function.update_noteq hji] at hj; exact hLock j hj
    · intro j rid hj
      by_cases hji : j = i
      · subst hji; rw [Function.update_same] at hj; exact absurd hj (by simp)
      · rw [Function.update_noteq hji] at hj; exact hBuild j rid hj
    · intro j w hj
      by_cases hji : j = i
      · subst hji; rw [Function.update_same] at hj
        cases hj; exact hinst
      · rw [Function.update_noteq hji] at hj; exact hDone j w hj
    · have hiff := exists_building_update s.pcs i (CallerPC.done v)
        (by rw [hpc]; simp [isBuilding]) (by simp [isBuilding])
      simpa only [hiff] using hCount
    · intro h2
      refine hFail ?_
      intro j e hje
      by_cases hji : j = i
      · subst hji; rw [hpc] at hje; cases hje
      · have := h2 j e
        rw [Function.update_noteq hji] at this
        exact this hje

theorem reachable_inv {n : Nat} {s : SState n} (h : Reachable s) : Inv s := by
  induction h with
  | init => exact inv_init n
  | step hr hstep ih => exact inv_step ih hstep

/-! ## Query templates (spec side, for the translation claim)

The spec describes a query as literal SQL text interleaved with named
placeholders, written either in the percent style %(name)s or in the
engine-native style :name.  These renderings are definitions of the
SPEC's wording, to be compared with the source-side convertChars. -/

inductive QSeg where
  | lit (l : List Char)
  | ph (name : List Char)
  deriving Repr, DecidableEq

/-- The template in percent-style placeholder syntax. -/
def renderPct : List QSeg → List Char
  | [] => []
  | .lit l :: rest => l ++ renderPct rest
  | .ph w :: rest => '%' :: '(' :: (w ++ ')' :: 's' :: renderPct rest)

/-- The template in the engine-native placeholder syntax. -/
def renderNative : List QSeg → List Char
  | [] => []
  | .lit l :: rest => l ++ renderNative rest
  | .ph w :: rest => ':' :: (w ++ renderNative rest)

/-- Whether the text contains a percent sign immediately followed by an
opening parenthesis (the start of a candidate placeholder token). -/
def hasPctParen : List Char → Bool
  | c1 :: c2 :: rest => (c1 = '%' && c2 = '(') || hasPctParen (c2 :: rest)
  | _ => false

/-- Well-formed segment: literal text holds no candidate token start and
does not end in a bare percent sign; placeholder names are nonempty
words. -/
def segOk : QSeg → Prop
  | .lit l => hasPctParen l = false ∧ l.getLast? ≠ some '%'
  | .ph w => w ≠ [] ∧ ∀ c ∈ w, isWordChar c = true

instance : DecidablePred segOk := fun sg => by
  cases sg <;> simp only [segOk] <;> infer_instance

def templateOk (segs : List QSeg) : Prop := ∀ sg ∈ segs, segOk sg

instance (segs : List QSeg) : Decidable (templateOk segs) :=
  List.decidableBAll segOk segs

/-! Lemmas relating convertChars to the two renderings. -/

theorem hasPctParen_tail {c : Char} {rest : List Char}
    (h : hasPctParen (c :: rest) = false) : hasPctParen rest = false := by
  cases rest with
  | nil => rfl
  | cons c2 r2 =>
    simp only [hasPctParen, Bool.or_eq_false_iff] at h
    exact h.2

theorem matchTok_none_of_pair {c1 c2 : Char} {rest : List Char}
    (h : ¬ (c1 = '%' ∧ c2 = '(')) : matchTok (c1 :: c2 :: rest) = none := by
  simp only [matchTok, if_neg h]

theorem pair_false_of_no_pp {c1 c2 : Char} {rest : List Char}
    (h : hasPctParen (c1 :: c2 :: rest) = false) : ¬ (c1 = '%' ∧ c2 = '(') := by
  simp only [hasPctParen, Bool.or_eq_false_iff, Bool.and_eq_false_iff] at h
  rcases h.1 with h1 | h1 <;> intro hc
  · exact absurd (decide_eq_true hc.1) (by simp [h1])
  · exact absurd (decide_eq_true hc.2) (by simp [h1])

theorem convertChars_no_pp : ∀ {l : List Char},
    hasPctParen l = false → convertChars l = l := by
  intro l
  induction l with
  | nil => intro _; rfl
  | cons c rest ih =>
    intro h
    have hm : matchTok (c :: rest) = none := by
      cases rest with
      | nil => rfl
      | cons c2 r2 => exact matchTok_none_of_pair (pair_false_of_no_pp h)
    rw [convertChars_unmatched hm, ih (hasPctParen_tail h)]

theorem convertChars_append : ∀ (l r : List Char),
    hasPctParen (l ++ r.take 1) = false →
    convertChars (l ++ r) = l ++ convertChars r := by
  intro l
  induction l with
  | nil => intro r _; rfl
  | cons c l2 ih =>
    intro r h
    have hm : matchTok (c :: (l2 ++ r)) = none := by
      cases hl2 : l2 with
      | nil =>
        cases hr : r with
        | nil => rfl
        | cons c2 r2 =>
          subst hl2 hr
          simp only [List.nil_append, List.take] at h
          exact matchTok_none_of_pair (pair_false_of_no_pp h)
      | cons c2 l3 =>
        subst hl2
        simp only [List.cons_append] at h ⊢
        exact matchTok_none_of_pair (pair_false_of_no_pp h)
    rw [List.cons_append, convertChars_unmatched hm]
    cases hl2 : l2 with
    | nil =>
      subst hl2
      simp only [List.nil_append]
      cases hr : r with
      | nil => rfl
      | cons c2 r2 =>
        have : convertChars ([] ++ r) = [] ++ convertChars r := rfl
        simpa using this
    | cons c2 l3 =>
      subst hl2
      have h2 : hasPctParen ((c2 :: l3) ++ r.take 1) = false := by
        simp only [List.cons_append] at h
        exact hasPctParen_tail h
      rw [ih r h2]
      rfl

theorem span_word_append {w : List Char} (rest : List Char)
    (hw : ∀ c ∈ w, isWordChar c = true) :
    (w ++ ')' :: rest).takeWhile isWordChar = w ∧
    (w ++ ')' :: rest).dropWhile isWordChar = ')' :: rest := by
  induction w with
  | nil =>
    constructor
    · simp [List.takeWhile, isWordChar]
    · simp [List.dropWhile, isWordChar]
  | cons c w2 ih =>
    have hc : isWordChar c = true := hw c (by simp)
    have ih2 := ih (fun c2 hc2 => hw c2 (by simp [hc2]))
    constructor
    · rw [List.cons_append, List.takeWhile_cons_of_pos hc, ih2.1]
    · rw [List.cons_append, List.dropWhile_cons_of_pos hc, ih2.2]

theorem matchTok_token {w : List Char} (t : List Char) (hne : w ≠ [])
    (hw : ∀ c ∈ w, isWordChar c = true) :
    matchTok ('%' :: '(' :: (w ++ ')' :: 's' :: t)) = some (w, t) := by
  have hspan := span_word_append ('s' :: t) hw
  simp only [matchTok, if_pos (And.intro rfl rfl), hspan.1, hspan.2]
  simp [hne]

theorem convertChars_token {w : List Char} (t : List Char) (hne : w ≠ [])
    (hw : ∀ c ∈ w, isWordChar c = true) :
    convertChars ('%' :: '(' :: (w ++ ')' :: 's' :: t)) =
      ':' :: (w ++ convertChars t) :=
  convertChars_matched (matchTok_token t hne hw)

theorem hasPctParen_append {a : List Char} : ∀ (b : List Char),
    hasPctParen a = false → a.getLast? ≠ some '%' →
    hasPctParen b = false → hasPctParen (a ++ b) = false := by
  induction a with
  | nil => intro b _ _ hb; simpa using hb
  | cons c a2 ih =>
    intro b ha hlast hb
    cases ha2 : a2 with
    | nil =>
      subst ha2
      simp only [List.getLast?_singleton] at hlast
      have hc : c ≠ '%' := fun hc => hlast (by rw [hc])
      cases b with
      | nil => rfl
      | cons b1 b2 =>
        simp only [List.cons_append, List.nil_append, hasPctParen,
          Bool.or_eq_false_iff]
        refine ⟨?_, hb⟩
        simp [hc]
    | cons c2 a3 =>
      subst ha2
      simp only [List.cons_append, hasPctParen, Bool.or_eq_false_iff] at ha ⊢
      refine ⟨ha.1, ?_⟩
      have hlast2 : (c2 :: a3).getLast? ≠ some '%' := by
        rwa [List.getLast?_cons_cons] at hlast
      exact ih b ha.2 hlast2 hb

theorem hasPctParen_of_no_pct {l : List Char}
    (h : ∀ c ∈ l, c ≠ '%') : hasPctParen l = false := by
  induction l with
  | nil => rfl
  | cons c rest ih =>
    cases rest with
    | nil => rfl
    | cons c2 r2 =>
      simp only [hasPctParen, Bool.or_eq_false_iff]
      constructor
      · simp [h c (by simp)]
      · exact ih (fun c3 hc3 => h c3 (by simp [hc3]))

theorem word_ne_pct {c : Char} (hc : isWordChar c = true) : c ≠ '%' := by
  intro h
  subst h
  simp [isWordChar, Char.isAlphanum, Char.isAlpha, Char.isUpper,
    Char.isLower, Char.isDigit] at hc

theorem hasPctParen_renderNative : ∀ (segs : List QSeg),
    templateOk segs → hasPctParen (renderNative segs) = false := by
  intro segs
  induction segs with
  | nil => intro _; rfl
  | cons sg rest ih =>
    intro h
    have hrest := ih (fun sg2 hsg2 => h sg2 (by simp [hsg2]))
    have hsg : segOk sg := h sg (by simp)
    cases sg with
    | lit l =>
      simp only [renderNative]
      exact hasPctParen_append (renderNative rest) hsg.1 hsg.2 hrest
    | ph w =>
      simp only [renderNative]
      have hcw : ∀ c ∈ ':' :: w, c ≠ '%' := by
        intro c hc
        rcases List.mem_cons.mp hc with hc | hc
        · subst hc; decide
        · exact word_ne_pct (hsg.2 c hc)
      have hall : hasPctParen (':' :: w) = false := hasPctParen_of_no_pct hcw
      have hlast : (':' :: w).getLast? ≠ some '%' := by
        intro hl
        have hmem : '%' ∈ ':' :: w := List.mem_of_mem_getLast? hl
        exact hcw '%' hmem rfl
      have : (':' :: w) ++ renderNative rest =
          ':' :: (w ++ renderNative rest) := by simp
      rw [← this]
      exact hasPctParen_append (renderNative rest) hall hlast hrest

theorem convertChars_renderPct : ∀ (segs : List QSeg),
    templateOk segs → convertChars (renderPct segs) = renderNative segs := by
  intro segs
  induction segs with
  | nil => intro _; rfl
  | cons sg rest ih =>
    intro h
    have hrest := ih (fun sg2 hsg2 => h sg2 (by simp [hsg2]))
    have hsg : segOk sg := h sg (by simp)
    cases sg with
    | lit l =>
      simp only [renderPct, renderNative]
      rw [convertChars_append l (renderPct rest) ?side, hrest]
      case side =>
        cases hr : renderPct rest with
        | nil => simpa using hsg.1
        | cons c r2 =>
          simp only [List.take]
          exact hasPctParen_append [c] hsg.1 hsg.2
            (by cases c <;> rfl)
    | ph w =>
      simp only [renderPct, renderNative]
      rw [convertChars_token (renderPct rest) hsg.1 hsg.2, hrest]

theorem convertChars_renderNative (segs : List QSeg) (h : templateOk segs) :
    convertChars (renderNative segs) = renderNative segs :=
  convertChars_no_pp (hasPctParen_renderNative segs h)

/-! ## Association-list lemmas for the Python-dict model. -/

theorem lookup_append (m m2 : List (String × String)) (k : String) :
    (m ++ m2).lookup k =
      match m.lookup k with
      | some v => some v
      | none => m2.lookup k := by
  induction m with
  | nil => rfl
  | cons p rest ih =>
    obtain ⟨a, b⟩ := p
    simp only [List.cons_append, List.lookup]
    cases hba : k == a
    · simpa only [hba] using ih
    · rfl

theorem lookup_singleton_ne {k a : String} (v : String) (h : k ≠ a) :
    ([(a, v)] : List (String × String)).lookup k = none := by
  have hba : (k == a) = false := by simpa using h
  simp only [List.lookup, hba]

theorem lookup_map_overwrite {k1 : String} (v : String) (k : String)
    (h : k ≠ k1) :
    ∀ m : List (String × String),
      (m.map (fun p => if p.1 = k1 then (k1, v) else p)).lookup k =
        m.lookup k := by
  intro m
  induction m with
  | nil => rfl
  | cons p rest ih =>
    obtain ⟨a, b⟩ := p
    by_cases ha : a = k1
    · subst ha
      have hba : (k == a) = false := by simpa using h
      have hhead : (if (a, b).1 = a then (a, v) else (a, b)) = (a, v) :=
        if_pos rfl
      rw [List.map_cons, hhead]
      simp only [List.lookup]
      rw [hba]
      exact ih
    · have hhead : (if (a, b).1 = k1 then (k1, v) else (a, b)) = (a, b) :=
        if_neg ha
      rw [List.map_cons, hhead]
      simp only [List.lookup]
      cases hba : k == a
      · exact ih
      · rfl

theorem dictInsert_lookup_ne (m : List (String × String)) {k1 k : String}
    (v : String) (h : k ≠ k1) :
    (dictInsert m k1 v).lookup k = m.lookup k := by
  unfold dictInsert
  split
  · exact lookup_map_overwrite v k h m
  · rw [lookup_append]
    cases hm : m.lookup k with
    | some v2 => rfl
    | none => exact lookup_singleton_ne v h

theorem buildDict_lookup_ne (k : String) :
    ∀ (l : List (String × String)) (m : List (String × String)),
      (∀ p ∈ l, p.1 ≠ k) →
      (l.foldl (fun m2 p => dictInsert m2 p.1 p.2) m).lookup k = m.lookup k := by
  intro l
  induction l with
  | nil => intro m _; rfl
  | cons p rest ih =>
    intro m h
    simp only [List.foldl]
    rw [ih (dictInsert m p.1 p.2) (fun q hq => h q (by simp [hq]))]
    exact dictInsert_lookup_ne m p.2 (fun hk => h p (by simp) hk.symm)

theorem buildDict_fresh :
    ∀ (l : List (String × String)) (m : List (String × String)),
      (∀ p ∈ l, m.lookup p.1 = none) → (l.map Prod.fst).Nodup →
      l.foldl (fun m2 p => dictInsert m2 p.1 p.2) m = m ++ l := by
  intro l
  induction l with
  | nil => intro m _ _; simp
  | cons p rest ih =>
    intro m hfresh hnodup
    obtain ⟨k, v⟩ := p
    simp only [List.map, List.nodup_cons] at hnodup
    have hmk : m.lookup k = none := hfresh (k, v) (by simp)
    simp only [List.foldl]
    have hins : dictInsert m k v = m ++ [(k, v)] := by
      unfold dictInsert
      rw [if_neg (by simp [hmk])]
    rw [hins]
    rw [ih (m ++ [(k, v)]) ?fresh2 hnodup.2]
    · simp
    case fresh2 =>
      intro q hq
      rw [lookup_append, hfresh q (by simp [hq])]
      refine lookup_singleton_ne v ?_
      intro hqk
      exact hnodup.1 (by
        have : q.1 ∈ rest.map Prod.fst := List.mem_map_of_mem Prod.fst hq
        rwa [hqk] at this)

theorem getSecretItem_foldl (fields : List OPField) :
    ∀ (m : List (String × String)),
      (fields.foldl
        (fun m2 f =>
          match fieldPair f with
          | some p => dictInsert m2 p.1 p.2
          | none => m2)
        m) =
      ((fields.filterMap fieldPair).foldl
        (fun m2 p => dictInsert m2 p.1 p.2) m) := by
  induction fields with
  | nil => intro m; rfl
  | cons f rest ih =>
    intro m
    cases hf : fieldPair f with
    | some p => simp only [List.foldl, List.filterMap, hf, ih]
    | none => simp only [List.foldl, List.filterMap, hf, ih]

/-! ## Remaining small definitions used by the claim theorems. -/

/-- Statement text carried by an exec event. -/
def evExec : Ev → Option String
  | .exec q => some q
  | _ => none

/-- An executor whose result set is empty (zero rows matched). -/
def execNoRows : Exec := fun _ _ => Except.ok { keys := ["id"], rows := [] }

/-- A vault item holding username and database but no password. -/
def demoSecrets : SecretsSchema :=
  ⟨[("username", "athena"), ("database", "athena_db")]⟩

/-! Concrete run of the singleton machine with one caller, used by the
witnesses: the caller walks the slow path, constructs, and returns. -/

def demo1 : SState 1 :=
  { initState 1 with
    pcs := Function.update (initState 1).pcs 0 CallerPC.waiting }

def demo2 : SState 1 :=
  { demo1 with
    lock := some 0
    pcs := Function.update demo1.pcs 0 CallerPC.check }

def demo3 : SState 1 :=
  { demo2 with
    runs := demo2.runs + 1
    pcs := Function.update demo2.pcs 0 (CallerPC.building demo2.runs) }

def demo4 : SState 1 :=
  { demo3 with
    inst := some 0
    pcs := Function.update demo3.pcs 0 CallerPC.unlock }

def demo5 : SState 1 :=
  { demo4 with
    lock := none
    pcs := Function.update demo4.pcs 0 CallerPC.retRead }

def demo6 : SState 1 :=
  { demo5 with pcs := Function.update demo5.pcs 0 (CallerPC.done 0) }

/-- The state after the factory of the single caller raises. -/
def demoFail : SState 1 :=
  { demo3 with
    fails := demo3.fails + 1
    lock := none
    pcs := Function.update demo3.pcs 0 (CallerPC.failed "factory boom") }

theorem demo3_reachable : Reachable demo3 := by
  have h1 : Step (SLabel.slowPath 0) (initState 1) demo1 :=
    Step.slowPath 0 rfl rfl
  have h2 : Step (SLabel.acquire 0) demo1 demo2 :=
    Step.acquire 0 rfl rfl
  have h3 : Step (SLabel.startRun 0) demo2 demo3 :=
    Step.startRun 0 rfl rfl
  exact Reachable.step (Reachable.step (Reachable.step Reachable.init h1) h2) h3

theorem demo6_reachable : Reachable demo6 := by
  have h4 : Step (SLabel.finishOk 0) demo3 demo4 :=
    Step.finishOk 0 0 rfl rfl
  have h5 : Step (SLabel.release 0) demo4 demo5 :=
    Step.release 0 rfl rfl
  have h6 : Step (SLabel.retRead 0) demo5 demo6 :=
    Step.retRead 0 0 rfl rfl
  exact Reachable.step (Reachable.step (Reachable.step demo3_reachable h4) h5) h6

/-! ## Trace lemmas for execute_in_transaction. -/

theorem runStmts_trace {DB : Type} (ex : ExecSt DB) (params : Params) :
    ∀ (queries : List String) (db : DB),
      (∃ k, (runStmts ex params queries db).2 =
          ((queries.map convertQuery).take k).map Ev.exec) ∧
      (∀ d, (runStmts ex params queries db).1 = Except.ok d →
        (runStmts ex params queries db).2 =
          (queries.map convertQuery).map Ev.exec) := by
  intro queries
  induction queries with
  | nil => intro db; exact ⟨⟨0, rfl⟩, fun _ _ => rfl⟩
  | cons q qs ih =>
    intro db
    cases hex : ex (convertQuery q) params db with
    | error e =>
      constructor
      · refine ⟨1, ?_⟩
        simp [runStmts, hex]
      · intro d hd
        simp [runStmts, hex] at hd
    | ok db2 =>
      have ih2 := ih db2
      rcases h2 : runStmts ex params qs db2 with ⟨r, evs⟩
      rw [h2] at ih2
      constructor
      · obtain ⟨k, hk⟩ := ih2.1
        dsimp only at hk
        refine ⟨k + 1, ?_⟩
        simp only [runStmts, hex, h2, List.map_cons, List.take]
        rw [hk, List.map_take, List.map_map]
      · intro d hd
        simp only [runStmts, hex, h2] at hd ⊢
        have hevs := ih2.2 d hd
        dsimp only at hevs
        simp [hevs, List.map_map]

theorem runStmts_count {DB : Type} (ex : ExecSt DB) (params : Params)
    (queries : List String) (db : DB) (e : Ev) (he : evExec e = none) :
    (runStmts ex params queries db).2.count e = 0 := by
  obtain ⟨k, hk⟩ := (runStmts_trace ex params queries db).1
  rw [hk]
  rw [List.count_eq_zero]
  intro hmem
  rw [List.mem_map] at hmem
  obtain ⟨q, _, hq⟩ := hmem
  rw [← hq] at he
  simp [evExec] at he

/-! ## Claim theorems. -/

theorem getLast_close (evs : List Ev) (x : Ev) :
    (Ev.sOpen :: evs ++ [x, Ev.sClose]).getLast? = some Ev.sClose := by
  rw [show Ev.sOpen :: evs ++ [x, Ev.sClose] =
    (Ev.sOpen :: evs ++ [x]) ++ [Ev.sClose] by simp]
  exact List.getLast?_concat _

/-- C3: for every body run inside the auto-commit session scope, normal
completion commits the session; a raised error rolls the session back
and is re-raised unchanged; and on every exit path the session close is
the last action of the scope. -/
theorem c3_session_scope_commit_rollback_close {A : Type}
    (body : Except Err A × List Ev) :
    (∀ a, body.1 = Except.ok a → sessionScope body =
      (Except.ok a, Ev.sOpen :: body.2 ++ [Ev.sCommit, Ev.sClose])) ∧
    (∀ e, body.1 = Except.error e → sessionScope body =
      (Except.error e, Ev.sOpen :: body.2 ++ [Ev.sRollback, Ev.sClose])) ∧
    (sessionScope body).2.getLast? = some Ev.sClose ∧
    (sessionScope body).1 = body.1 := by
  rcases body with ⟨r, evs⟩
  cases r with
  | ok a =>
    refine ⟨?_, ?_, ?_, rfl⟩
    · intro a2 ha2
      cases ha2
      rfl
    · intro e he
      cases he
    · exact getLast_close evs Ev.sCommit
  | error e =>
    refine ⟨?_, ?_, ?_, rfl⟩
    · intro a2 ha2
      cases ha2
    · intro e2 he2
      cases he2
      rfl
    · exact getLast_close evs Ev.sRollback

theorem c3_session_scope_witness :
    sessionScope (Except.ok 7, ([Ev.exec "SELECT 1"] : List Ev)) =
      (Except.ok 7, [Ev.sOpen, Ev.exec "SELECT 1", Ev.sCommit, Ev.sClose]) ∧
    sessionScope ((Except.error "stmt failed" : Except Err Nat),
        ([] : List Ev)) =
      (Except.error "stmt failed", [Ev.sOpen, Ev.sRollback, Ev.sClose]) := by
  constructor
  · simpa using (c3_session_scope_commit_rollback_close
      (Except.ok 7, [Ev.exec "SELECT 1"])).1 7 rfl
  · simpa using (c3_session_scope_commit_rollback_close
      ((Except.error "stmt failed" : Except Err Nat), [])).2.1 "stmt failed" rfl

/-- C1 (code bug in run_query): a non-read statement and a SELECT that
matched zero rows both return the same empty list, so the claimed
distinct no-rows marker (the docstring's None) does not exist. -/
theorem c1_no_rows_marker_not_distinct :
    (runQuery execNoRows "UPDATE users SET name = %(name)s"
      [("name", "x")]).1 = Except.ok [] ∧
    (runQuery execNoRows "SELECT * FROM users WHERE id = %(id)s"
      [("id", "1")]).1 = Except.ok [] ∧
    (runQuery execNoRows "UPDATE users SET name = %(name)s"
      [("name", "x")]).1 =
      (runQuery execNoRows "SELECT * FROM users WHERE id = %(id)s"
        [("id", "1")]).1 := by
  refine ⟨?_, ?_, ?_⟩ <;> rfl

/-- C9 counterexample: a non-2xx response whose body parses as JSON is
returned as an ordinary success-shaped value; no typed error is
raised. -/
theorem c9_counterexample_non2xx_returns_ok :
    httpRequest { status := 500, body := RespBody.jsonDoc "error payload" } =
      Except.ok (Sum.inl "error payload") := rfl

/-- C9 (amended): HTTPError, carrying the status code and the raw body
text, is raised exactly when the body fails to decode (other than a
content-type mismatch); JSON bodies are returned as parsed values and
non-JSON bodies as raw text, whatever the status code; no retry. -/
theorem c9_request_error_handling :
    (∀ s b, httpRequest { status := s, body := RespBody.malformedJson b } =
      Except.error { status := s, message := b }) ∧
    (∀ s d, httpRequest { status := s, body := RespBody.jsonDoc d } =
      Except.ok (Sum.inl d)) ∧
    (∀ s t, httpRequest { status := s, body := RespBody.nonJsonText t } =
      Except.ok (Sum.inr t)) :=
  ⟨fun _ _ => rfl, fun _ _ => rfl, fun _ _ => rfl⟩

/-- C8 counterexample: the client this repository hands its secrets
calls to is constructed without any timeout, so those calls do not
carry the 20-unit total timeout the claim asserts; only the model-API
client carries it. -/
theorem c8_counterexample_secrets_no_timeout :
    (newClientArgs "https://op-connect.internal" "tok").timeout = none ∧
    (newClientArgs "https://op-connect.internal" "tok").timeout ≠ some 20 ∧
    (httpRequestSpec "POST" "https://model-api/v1/chat/completions"
      []).timeout.total = some 20 := by
  refine ⟨rfl, ?_, rfl⟩
  intro h
  cases h

/-- C8 (amended): every request built by AsyncHttpClient carries
ClientTimeout(total=20) and a failing call propagates its error to the
caller with no retry, while the secrets-backend client is created by
this code without any timeout configured. -/
theorem c8_timeout_configuration :
    (∀ method url headers,
      (httpRequestSpec method url headers).timeout.total = some 20) ∧
    (∀ (resp : HttpResponse) (b : String),
      resp.body = RespBody.malformedJson b →
      httpRequest resp = Except.error { status := resp.status, message := b }) ∧
    (∀ host token, (newClientArgs host token).timeout = none) := by
  refine ⟨fun _ _ _ => rfl, ?_, fun _ _ => rfl⟩
  intro resp b hb
  rcases resp with ⟨s, body⟩
  cases hb
  rfl

theorem c8_timeout_witness :
    ({ status := 503, body := RespBody.malformedJson "bad gateway page" } :
      HttpResponse).body = RespBody.malformedJson "bad gateway page" ∧
    httpRequest { status := 503, body := RespBody.malformedJson "bad gateway page" } =
      Except.error { status := 503, message := "bad gateway page" } :=
  ⟨rfl, c8_timeout_configuration.2.1 _ "bad gateway page" rfl⟩

theorem filterMap_evExec_map (qs : List String) :
    (qs.map Ev.exec).filterMap evExec = qs := by
  induction qs with
  | nil => rfl
  | cons q rest ih => simp [evExec, ih]

theorem fm_ok_trace (evs : List Ev) :
    (Ev.sOpen :: (Ev.txBegin :: evs ++ [Ev.txCommit]) ++
      [Ev.sCommit, Ev.sClose]).filterMap evExec = evs.filterMap evExec := by
  simp [evExec]

theorem fm_err_trace (evs : List Ev) :
    (Ev.sOpen :: (Ev.txBegin :: (evs ++ [Ev.sRollback]) ++
      [Ev.txRollback]) ++ [Ev.sRollback, Ev.sClose]).filterMap evExec =
      evs.filterMap evExec := by
  simp [evExec]

/-- C2: execute_in_transaction opens one session and one explicit
transaction boundary, executes the translated statements in list order
against the shared parameter mapping, and either all succeed (the call
returns true and the committed state is the result of every statement)
or the committed state is exactly the initial one and the triggering
error is re-raised; a proper non-empty prefix of the statements is
never committed. -/
theorem c2_execute_in_transaction_atomic {DB : Type} (ex : ExecSt DB)
    (queries : List String) (params : Params) (db : DB) :
    ((executeInTransaction ex queries params db).2.2.count Ev.sOpen = 1) ∧
    ((executeInTransaction ex queries params db).2.2.count Ev.txBegin = 1) ∧
    (∃ k, (executeInTransaction ex queries params db).2.2.filterMap evExec =
      (queries.map convertQuery).take k) ∧
    (((executeInTransaction ex queries params db).1 = Except.ok true ∧
      (runStmts ex params queries db).1 =
        Except.ok (executeInTransaction ex queries params db).2.1 ∧
      (executeInTransaction ex queries params db).2.2.filterMap evExec =
        queries.map convertQuery) ∨
     (∃ e, (executeInTransaction ex queries params db).1 = Except.error e ∧
       (runStmts ex params queries db).1 = Except.error e ∧
       (executeInTransaction ex queries params db).2.1 = db)) := by
  have htr := runStmts_trace ex params queries db
  rcases hrs : runStmts ex params queries db with ⟨r, evs⟩
  rw [hrs] at htr
  dsimp only at htr
  obtain ⟨⟨k0, hk0⟩, hfull⟩ := htr
  cases r with
  | ok d =>
    have hevs : evs = (queries.map convertQuery).map Ev.exec :=
      hfull d rfl
    have hred : executeInTransaction ex queries params db =
        (Except.ok true, d,
          Ev.sOpen :: (Ev.txBegin :: evs ++ [Ev.txCommit]) ++
            [Ev.sCommit, Ev.sClose]) := by
      simp [executeInTransaction, hrs, innerTry, txScope, sessionScope]
    rw [hred]
    refine ⟨?_, ?_, ?_, ?_⟩
    · simp [List.count_cons, List.count_append, hevs, List.count_eq_zero,
        List.mem_map]
    · simp [List.count_cons, List.count_append, hevs, List.count_eq_zero,
        List.mem_map]
    · refine ⟨(queries.map convertQuery).length, ?_⟩
      rw [fm_ok_trace, hevs, filterMap_evExec_map, List.take_length]
    · left
      refine ⟨rfl, rfl, ?_⟩
      rw [fm_ok_trace, hevs, filterMap_evExec_map]
  | error e =>
    have hred : executeInTransaction ex queries params db =
        (Except.error e, db,
          Ev.sOpen :: (Ev.txBegin :: (evs ++ [Ev.sRollback]) ++
            [Ev.txRollback]) ++ [Ev.sRollback, Ev.sClose]) := by
      simp [executeInTransaction, hrs, innerTry, txScope, sessionScope]
    rw [hred]
    have hevs0 : ∀ e2 : Ev, evExec e2 = none → evs.count e2 = 0 := by
      intro e2 he2
      have := runStmts_count ex params queries db e2 he2
      rw [hrs] at this
      exact this
    refine ⟨?_, ?_, ?_, ?_⟩
    · have h0 := hevs0 Ev.sOpen rfl
      simp [List.count_cons, List.count_append, h0]
    · have h0 := hevs0 Ev.txBegin rfl
      simp [List.count_cons, List.count_append, h0]
    · refine ⟨k0, ?_⟩
      rw [fm_err_trace, hk0, filterMap_evExec_map]
    · right
      exact ⟨e, rfl, rfl, rfl⟩

/-- C6: rendering a template with percent-style placeholders and
translating it yields exactly the native rendering (each token becomes
a colon-name, all other characters preserved), and run_query,
run_insert_query_with_id and execute_in_transaction behave identically
on the two renderings with the same parameters. -/
theorem c6_placeholder_translation_roundtrip (segs : List QSeg)
    (h : templateOk segs) :
    convertChars (renderPct segs) = renderNative segs ∧
    (∀ (ex : Exec) (params : Params),
      runQuery ex (renderPct segs).asString params =
        runQuery ex (renderNative segs).asString params) ∧
    (∀ (ex : Exec) (params : Params),
      runInsertQueryWithId ex (renderPct segs).asString params =
        runInsertQueryWithId ex (renderNative segs).asString params) ∧
    (∀ (DB : Type) (ex : ExecSt DB) (params : Params) (db : DB),
      executeInTransaction ex [(renderPct segs).asString] params db =
        executeInTransaction ex [(renderNative segs).asString] params db) := by
  have hpct : convertQuery (renderPct segs).asString =
      (renderNative segs).asString := by
    show (convertChars (renderPct segs)).asString = _
    rw [convertChars_renderPct segs h]
  have hnat : convertQuery (renderNative segs).asString =
      (renderNative segs).asString := by
    show (convertChars (renderNative segs)).asString = _
    rw [convertChars_renderNative segs h]
  have hconv : convertQuery (renderPct segs).asString =
      convertQuery (renderNative segs).asString := by
    rw [hpct, hnat]
  refine ⟨convertChars_renderPct segs h, ?_, ?_, ?_⟩
  · intro ex params
    unfold runQuery
    rw [hconv]
  · intro ex params
    unfold runInsertQueryWithId
    rw [hconv]
  · intro DB ex params db
    unfold executeInTransaction runStmts
    rw [hconv]

def demoSegs : List QSeg :=
  [QSeg.lit ("SELECT name FROM users WHERE id = ".data),
   QSeg.ph ("id".data)]

theorem c6_translation_witness :
    templateOk demoSegs ∧
    convertChars (renderPct demoSegs) = renderNative demoSegs ∧
    (renderPct demoSegs).asString =
      "SELECT name FROM users WHERE id = %(id)s" ∧
    (renderNative demoSegs).asString =
      "SELECT name FROM users WHERE id = :id" := by
  refine ⟨?_, ?_, ?_, ?_⟩
  · decide
  · exact (c6_placeholder_translation_roundtrip demoSegs (by decide)).1
  · rfl
  · rfl

theorem exceptBindErr {A B : Type} (e : Err) (f : A → Except Err B) :
    (Except.error e >>= f) = Except.error e := rfl

theorem exceptBindOk {A B : Type} (a : A) (f : A → Except Err B) :
    (Except.ok a >>= f) = f a := rfl

/-- C7: Database construction on a secrets record lacking the database
name, username or password fails inside __init_db with an error naming
the missing key, before the engine or the session factory is created;
the engine-creation step runs only when all three are present. -/
theorem c7_missing_credential_fails_before_engine
    (fetched : SecretsSchema) (deployment envHost : String) (envPort : Nat) :
    ((fetched.secrets.lookup "username" = none ∨
      fetched.secrets.lookup "database" = none ∨
      fetched.secrets.lookup "password" = none) →
      (∃ k, (k = "username" ∨ k = "database" ∨ k = "password") ∧
        fetched.secrets.lookup k = none ∧
        (databaseCreate fetched deployment envHost envPort).1 =
          Except.error ("Key " ++ k ++ " not found")) ∧
      CreateEv.engineCreated ∉
        (databaseCreate fetched deployment envHost envPort).2 ∧
      CreateEv.sessionFactoryCreated ∉
        (databaseCreate fetched deployment envHost envPort).2) ∧
    (CreateEv.engineCreated ∈
        (databaseCreate fetched deployment envHost envPort).2 →
      (fetched.secrets.lookup "username").isSome ∧
      (fetched.secrets.lookup "database").isSome ∧
      (fetched.secrets.lookup "password").isSome) := by
  cases hu : fetched.secrets.lookup "username" with
  | none =>
    have hred : databaseCreate fetched deployment envHost envPort =
        (Except.error ("Key " ++ "username" ++ " not found"),
          [CreateEv.fetchedSecrets]) := by
      simp [databaseCreate, initDb, SecretsSchema.get, hu, exceptBindErr,
        exceptBindOk]
    rw [hred]
    refine ⟨fun _ => ⟨⟨"username", Or.inl rfl, hu, rfl⟩, by simp, by simp⟩, ?_⟩
    intro hmem
    simp at hmem
  | some u =>
    cases hd : fetched.secrets.lookup "database" with
    | none =>
      have hred : databaseCreate fetched deployment envHost envPort =
          (Except.error ("Key " ++ "database" ++ " not found"),
            [CreateEv.fetchedSecrets]) := by
        simp [databaseCreate, initDb, SecretsSchema.get, hu, hd,
          exceptBindErr, exceptBindOk]
      rw [hred]
      refine ⟨fun _ =>
        ⟨⟨"database", Or.inr (Or.inl rfl), hd, rfl⟩, by simp, by simp⟩, ?_⟩
      intro hmem
      simp at hmem
    | some d =>
      cases hp : fetched.secrets.lookup "password" with
      | none =>
        have hred : databaseCreate fetched deployment envHost envPort =
            (Except.error ("Key " ++ "password" ++ " not found"),
              [CreateEv.fetchedSecrets]) := by
          simp [databaseCreate, initDb, SecretsSchema.get, hu, hd, hp,
            exceptBindErr, exceptBindOk]
        rw [hred]
        refine ⟨fun _ =>
          ⟨⟨"password", Or.inr (Or.inr rfl), hp, rfl⟩, by simp, by simp⟩, ?_⟩
        intro hmem
        simp at hmem
      | some p =>
        constructor
        · intro hmiss
          rcases hmiss with h1 | h1 | h1 <;> simp_all
        · intro _
          simp

theorem c7_missing_credential_witness :
    (demoSecrets.secrets.lookup "username" = none ∨
      demoSecrets.secrets.lookup "database" = none ∨
      demoSecrets.secrets.lookup "password" = none) ∧
    (databaseCreate demoSecrets "local" "localhost" 5432).1 =
      Except.error ("Key " ++ "password" ++ " not found") ∧
    CreateEv.engineCreated ∉
      (databaseCreate demoSecrets "local" "localhost" 5432).2 := by
  have hm : demoSecrets.secrets.lookup "password" = none := by decide
  have h := (c7_missing_credential_fails_before_engine demoSecrets
    "local" "localhost" 5432).1 (Or.inr (Or.inr hm))
  exact ⟨Or.inr (Or.inr hm), rfl, h.2.1⟩

/-- C10: get_secret_item returns exactly the label-to-value pairs of
the fields carrying both a label and a value (incomplete fields are
skipped silently, never an error), so a required field with a null
value surfaces only later as the consumer's missing-key error. -/
theorem c10_get_secret_item_skips_incomplete (fields : List OPField) :
    (((fields.filterMap fieldPair).map Prod.fst).Nodup →
      (getSecretItem fields).secrets = fields.filterMap fieldPair) ∧
    (∀ k, (∀ p ∈ fields.filterMap fieldPair, p.1 ≠ k) →
      (getSecretItem fields).get k =
        Except.error ("Key " ++ k ++ " not found")) := by
  have hfold : (getSecretItem fields).secrets =
      (fields.filterMap fieldPair).foldl
        (fun m2 p => dictInsert m2 p.1 p.2) [] := by
    show (fields.foldl _ []) = _
    exact getSecretItem_foldl fields []
  constructor
  · intro hnodup
    rw [hfold]
    have := buildDict_fresh (fields.filterMap fieldPair) []
      (fun p _ => rfl) hnodup
    simpa using this
  · intro k hk
    have hlook : ((getSecretItem fields).secrets).lookup k = none := by
      rw [hfold]
      rw [buildDict_lookup_ne k (fields.filterMap fieldPair) [] hk]
      rfl
    show SecretsSchema.get _ k = _
    unfold SecretsSchema.get
    rw [hlook]

def demoFields : List OPField :=
  [{ label := some "username", value := some "athena" },
   { label := some "password", value := none },
   { label := none, value := some "orphan" }]

theorem c10_get_secret_item_witness :
    ((demoFields.filterMap fieldPair).map Prod.fst).Nodup ∧
    (getSecretItem demoFields).secrets = [("username", "athena")] ∧
    (getSecretItem demoFields).get "password" =
      Except.error ("Key " ++ "password" ++ " not found") := by
  refine ⟨by decide, ?_, ?_⟩
  · have h := (c10_get_secret_item_skips_incomplete demoFields).1 (by decide)
    rw [h]
    rfl
  · exact (c10_get_secret_item_skips_incomplete demoFields).2 "password"
      (by decide)

/-- C4: on every schedule of N concurrent get_instance callers starting
from the unset singleton, once all callers have returned, the factory
ran exactly once and every caller returned the identical instance; and
a construction can only start when none is in flight and nothing is
cached. -/
theorem c4_singleton_exactly_once {n : Nat} {s : SState n}
    (hn : 0 < n) (hr : Reachable s) :
    ((∀ i, ∃ v, s.pcs i = CallerPC.done v) →
      s.runs = 1 ∧ ∃ v, s.inst = some v ∧
        ∀ i, s.pcs i = CallerPC.done v) ∧
    (∀ (j : Fin n) (s2 : SState n), Step (SLabel.startRun j) s s2 →
      s.inst = none ∧ ∀ (i : Fin n) (rid : Nat),
        s.pcs i ≠ CallerPC.building rid) := by
  obtain ⟨hLock, hBuild, hDone, hCount, hFail⟩ := reachable_inv hr
  constructor
  · intro hdone
    have hnofail : ∀ (i : Fin n) (e : Err),
        s.pcs i ≠ CallerPC.failed e := by
      intro i e hie
      obtain ⟨v, hv⟩ := hdone i
      rw [hv] at hie
      cases hie
    have hfails : s.fails = 0 := hFail hnofail
    have hnobuild : ¬ ∃ i, isBuilding (s.pcs i) := by
      rintro ⟨i, hi⟩
      obtain ⟨v, hv⟩ := hdone i
      rw [hv] at hi
      exact absurd hi (by simp [isBuilding])
    obtain ⟨v0, hv0⟩ := hdone ⟨0, hn⟩
    have hinst : s.inst = some v0 := hDone _ v0 hv0
    constructor
    · rw [if_neg hnobuild, hfails, hinst] at hCount
      simpa using hCount
    · refine ⟨v0, hinst, ?_⟩
      intro i
      obtain ⟨w, hw⟩ := hdone i
      have hwv := hDone i w hw
      rw [hinst] at hwv
      cases hwv
      exact hw
  · intro j s2 hstep
    cases hstep with
    | startRun _ hpc hinst =>
      refine ⟨hinst, ?_⟩
      intro i rid hib
      have hli := hLock i (by rw [hib]; trivial)
      have hlj := hLock j (by rw [hpc]; trivial)
      rw [hlj] at hli
      cases hli
      rw [hpc] at hib
      cases hib

theorem c4_singleton_witness :
    (0 : Nat) < 1 ∧ demo6.runs = 1 ∧ demo6.inst = some 0 ∧
      demo6.pcs 0 = CallerPC.done 0 := by
  have h := (c4_singleton_exactly_once (by decide) demo6_reachable).1
    (fun i => ⟨0, by fin_cases i <;> rfl⟩)
  exact ⟨by decide, h.1, rfl, rfl⟩

/-- C5: when the factory raises during a get_instance call, the caller
that triggered construction receives exactly the factory's error and
the cached instance stays unset, so a subsequent caller can drive a
fresh construction attempt (the factory run counter increases again). -/
theorem c5_singleton_failure_then_retry {n : Nat} {s : SState n}
    (hr : Reachable s) :
    (∀ (i : Fin n) (e : Err) (s2 : SState n),
      Step (SLabel.finishFail i e) s s2 →
      s2.inst = none ∧ s2.pcs i = CallerPC.failed e) ∧
    (∀ j : Fin n, s.pcs j = CallerPC.start → s.inst = none →
      s.lock = none →
      ∃ s1 s2 s3 : SState n,
        Step (SLabel.slowPath j) s s1 ∧ Step (SLabel.acquire j) s1 s2 ∧
        Step (SLabel.startRun j) s2 s3 ∧ s3.runs = s.runs + 1) := by
  obtain ⟨hLock, hBuild, hDone, hCount, hFail⟩ := reachable_inv hr
  constructor
  · intro i e s2 hstep
    cases hstep with
    | finishFail _ rid _ hpc hlock =>
      have hinst : s.inst = none := (hBuild i rid hpc).1
      constructor
      · exact hinst
      · exact Function.update_same i (CallerPC.failed e) s.pcs
  · intro j hpc hinst hlock
    refine ⟨_, _, _, Step.slowPath j hpc hinst,
      Step.acquire j ?g1 ?g2, Step.startRun j ?g3 ?g4, rfl⟩
    case g1 => exact Function.update_same j CallerPC.waiting s.pcs
    case g2 => exact hlock
    case g3 => exact Function.update_same ..
    case g4 => exact hinst

theorem c5_singleton_witness :
    demoFail.inst = none ∧ demoFail.pcs 0 = CallerPC.failed "factory boom" :=
  (c5_singleton_failure_then_retry demo3_reachable).1 0 "factory boom"
    demoFail (Step.finishFail 0 0 "factory boom" rfl rfl)

end LoyalBackend
